import Mathlib

/-! goiscsi: a shallow embedding of `iscsi.go`.

Go strings are modelled as lists of characters (the commands' outputs are
taken to be valid UTF-8 text, for which Go's byte-wise `strings.Contains`
and `strings.Split` agree with their character-wise counterparts).

The external world is reached only through `exec.Command(..).CombinedOutput()`
and `time.Sleep`.  It is modelled by an `Executor`: the result of a command
as a function of everything that happened before it (commands run, their
results, sleeps).  Every function threads the `History` explicitly, so the
commands a function issues can be read off from the history it returns.
Log output (`Trace`, `Info`, `Error`) has no influence on results and is
left out.
-/

namespace Iscsi

/-! ## Strings -/

abbrev Str := List Char

/-- Go `unicode.IsSpace`: the Unicode White_Space property. -/
def isSpace (c : Char) : Bool :=
  let n := c.toNat
  (decide (9 ≤ n) && decide (n ≤ 13)) || n == 32 || n == 133 || n == 160 ||
  n == 5760 || (decide (8192 ≤ n) && decide (n ≤ 8202)) || n == 8232 || n == 8233 ||
  n == 8239 || n == 8287 || n == 12288

/-- Go `strings.TrimSpace`: drop leading and trailing white space. -/
def TrimSpace (s : Str) : Str :=
  (((s.dropWhile isSpace).reverse).dropWhile isSpace).reverse

/-- Go `strings.Contains(s, substr)`. -/
def Contains : Str → Str → Bool
  | [], substr => substr.isPrefixOf []
  | c :: cs, substr => substr.isPrefixOf (c :: cs) || Contains cs substr

/-- Put a character in front of the first piece of a split. -/
def consHead (c : Char) : List Str → List Str
  | [] => [[c]]
  | p :: ps => (c :: p) :: ps

/-- Go `strings.Split(s, sep)` for a separator of one character (the source
only splits on "\n" and on "="): the pieces between the separators, empty
pieces included; the empty string gives one empty piece. -/
def Split : Str → Char → List Str
  | [], _ => [[]]
  | c :: cs, sep => if c = sep then [] :: Split cs sep else consHead c (Split cs sep)

/-- Worker of `Fields`: `cur` holds the characters of the field being read,
newest first. -/
def fieldsGo : Str → Str → List Str
  | [], cur => if cur.isEmpty then [] else [cur.reverse]
  | c :: cs, cur =>
    if isSpace c then
      (if cur.isEmpty then fieldsGo cs [] else cur.reverse :: fieldsGo cs [])
    else fieldsGo cs (c :: cur)

/-- Go `strings.Fields`: the maximal runs of non-space characters. -/
def Fields (s : Str) : List Str := fieldsGo s []

/-- Go `strconv.Itoa`. -/
def Itoa (i : Int) : Str :=
  if i < 0 then '-' :: Nat.toDigits 10 i.natAbs else Nat.toDigits 10 i.toNat

/-! ## Data model -/

/-- The Go `Device` struct. -/
structure Device where
  IQN : Str
  Path : Str
  MPDevice : Str
  Portal : Str
  Port : Str
  IFace : Str
  UseChap : Bool
  ChapLogin : Str
  ChapPasswd : Str
  Lun : Int
  deriving DecidableEq

/-- The zero value `Device{}`. -/
def Device.zero : Device :=
  ⟨[], [], [], [], [], [], false, [], [], 0⟩

/-- A non-nil Go `error` value, identified by its message. -/
abbrev Err := Str

/-- A run-time panic of the Go program. -/
inductive Panic
  | indexOutOfRange
  deriving DecidableEq

/-! ## The command executor -/

/-- A command line: `exec.Command(name, args...)`. -/
structure Cmd where
  name : Str
  args : List Str
  deriving DecidableEq

/-- What `CombinedOutput()` returns: the output and the error (`none` is nil). -/
structure CmdResult where
  out : Str
  err : Option Err
  deriving DecidableEq

/-- One interaction with the outside world. -/
inductive Event
  | exec (c : Cmd) (r : CmdResult)
  | sleep (seconds : Nat)
  deriving DecidableEq

abbrev History := List Event

/-- The outside world: the result of a command, given all earlier events. -/
abbrev Executor := History → Cmd → CmdResult

/-- Run a command: `exec.Command(name, args...).CombinedOutput()`. -/
def CombinedOutput (ex : Executor) (h : History) (c : Cmd) : CmdResult × History :=
  (ex h c, h ++ [Event.exec c (ex h c)])

/-- Call `time.Sleep` for the given number of seconds. -/
def Sleep (h : History) (seconds : Nat) : History :=
  h ++ [Event.sleep seconds]

/-! ## The functions of `iscsi.go` -/

/-- The command of `isMultipath`: `multipath -c dev`. -/
def multipathCmd (dev : Str) : Cmd :=
  ⟨"multipath".toList, ["-c".toList, dev]⟩

/-- Go `isMultipath`. -/
def isMultipath (ex : Executor) (h : History) (dev : Str) : Bool × History :=
  let r := CombinedOutput ex h (multipathCmd dev)
  match r.1.err with
  | some _ => (false, r.2)
  | none =>
    if Contains r.1.out "is a valid multipath device".toList then (true, r.2)
    else (false, r.2)

/-- The command of `stat`: `sh -c "stat f"`. -/
def statCmd (f : Str) : Cmd :=
  ⟨"sh".toList, ["-c".toList, "stat ".toList ++ f]⟩

/-- Go `stat`. -/
def stat (ex : Executor) (h : History) (f : Str) : CmdResult × History :=
  CombinedOutput ex h (statCmd f)

/-- The loop of `waitForPathToExist`, with `n = maxRetries - i` iterations
left: `for i := 0; i < maxRetries; i++`. -/
def waitLoop (ex : Executor) (d : Str) : Nat → History → Bool × History
  | 0, h => (false, h)
  | n + 1, h =>
    let r := stat ex h d
    match r.1.err with
    | none => (true, r.2)
    | some _ => waitLoop ex d n (Sleep r.2 2)

/-- Go `waitForPathToExist`. -/
def waitForPathToExist (ex : Executor) (h : History) (d : Str) (maxRetries : Int) :
    Bool × History :=
  waitLoop ex d maxRetries.toNat h

/-- The common arguments `-m node -T tiqn -p portal`. -/
def nodeArgs (tiqn portal : Str) : List Str :=
  ["-m".toList, "node".toList, "-T".toList, tiqn, "-p".toList, portal]

def iscsiadm (args : List Str) : Cmd := ⟨"iscsiadm".toList, args⟩

def createCmd (tiqn portal iface : Str) : Cmd :=
  iscsiadm (nodeArgs tiqn portal ++
    ["--interface".toList, iface, "--op".toList, "new".toList])

def authMethodCmd (tiqn portal : Str) : Cmd :=
  iscsiadm (nodeArgs tiqn portal ++
    ["--op=update".toList, "--name".toList, "node.session.auth.authmethod".toList,
     "--value=CHAP".toList])

def authUserCmd (tiqn portal username : Str) : Cmd :=
  iscsiadm (nodeArgs tiqn portal ++
    ["--op=update".toList, "--name".toList, "node.session.auth.username".toList,
     "--value=".toList ++ username])

def authPasswordCmd (tiqn portal password : Str) : Cmd :=
  iscsiadm (nodeArgs tiqn portal ++
    ["--op=update".toList, "--name".toList, "node.session.auth.password".toList,
     "--value=".toList ++ password])

def loginCmd (tiqn portal : Str) : Cmd :=
  iscsiadm (nodeArgs tiqn portal ++ ["--login".toList])

/-- Go `LoginWithChap`: the returned error (`none` is nil) and the history. -/
def LoginWithChap (ex : Executor) (h : History)
    (tiqn portal username password iface : Str) : Option Err × History :=
  let r1 := CombinedOutput ex h (createCmd tiqn portal iface)
  match r1.1.err with
  | some e => (some e, r1.2)
  | none =>
    let r2 := CombinedOutput ex r1.2 (authMethodCmd tiqn portal)
    match r2.1.err with
    | some e => (some e, r2.2)
    | none =>
      let r3 := CombinedOutput ex r2.2 (authUserCmd tiqn portal username)
      match r3.1.err with
      | some e => (some e, r3.2)
      | none =>
        let r4 := CombinedOutput ex r3.2 (authPasswordCmd tiqn portal password)
        match r4.1.err with
        | some e => (some e, r4.2)
        | none =>
          let r5 := CombinedOutput ex r4.2 (loginCmd tiqn portal)
          (r5.1.err, r5.2)

/-- Go `Login`; the `iface` argument is not used by the source. -/
def Login (ex : Executor) (h : History) (tiqn portal _iface : Str) :
    Option Err × History :=
  let r := CombinedOutput ex h (loginCmd tiqn portal)
  (r.1.err, r.2)

/-- The interface probe of `Attach`: `iscsiadm -m iface -I iface -o show`. -/
def ifaceCmd (iface : Str) : Cmd :=
  iscsiadm ["-m".toList, "iface".toList, "-I".toList, iface, "-o".toList, "show".toList]

/-- The by-path name `Attach` looks for. -/
def devicePath (d : Device) : Str :=
  "/dev/disk/by-path/ip-".toList ++ d.Portal ++ "-iscsi-".toList ++ d.IQN ++
    "lun-".toList ++ Itoa d.Lun

/-- Go `Attach`: the returned `(Device, error)` and the history.  On the
paths that return `*d`, the caller's device has been updated to the same
value. -/
def Attach (ex : Executor) (h : History) (d : Device) :
    (Device × Option Err) × History :=
  let r := CombinedOutput ex h (ifaceCmd d.IFace)
  match r.1.err with
  | some e => ((Device.zero, some e), r.2)
  | none =>
    let path := devicePath d
    let w := waitForPathToExist ex r.2 path 0
    if w.1 = true then (({ d with Path := path }, none), w.2)
    else
      let l :=
        if d.UseChap = true then
          LoginWithChap ex w.2 d.IQN d.Portal d.ChapLogin d.ChapPasswd d.IFace
        else Login ex w.2 d.IQN d.Portal d.IFace
      let w2 := waitForPathToExist ex l.2 path 10
      if w2.1 then (({ d with Path := path }, none), w2.2)
      else ((d, none), w2.2)

/-- The command of `GetInitiatorIqns`. -/
def catCmd : Cmd := ⟨"cat".toList, ["/etc/iscsi/initiatorname.iscsi".toList]⟩

/-- The key `GetInitiatorIqns` looks for in a line. -/
def initiatorKey : Str := "InitiatorName=".toList

/-- The loop of `GetInitiatorIqns` over the lines; `strings.Split(l, "=")[1]`
is an indexing that panics when there is no second piece. -/
def collectIqns : List Str → List Str → Except Panic (List Str)
  | [], iqns => Except.ok iqns
  | l :: ls, iqns =>
    if Contains l initiatorKey then
      match (Split l '=').get? 1 with
      | none => Except.error Panic.indexOutOfRange
      | some v => collectIqns ls (iqns ++ [v])
    else collectIqns ls iqns

/-- Go `GetInitiatorIqns`. -/
def GetInitiatorIqns (ex : Executor) (h : History) :
    Except Panic (List Str × Option Err) × History :=
  let r := CombinedOutput ex h catCmd
  match r.1.err with
  | some e => (Except.ok ([], some e), r.2)
  | none =>
    match collectIqns (Split r.1.out '\n') [] with
    | Except.error p => (Except.error p, r.2)
    | Except.ok iqns => (Except.ok (iqns, none), r.2)

/-- The row scan of `GetDevice`: `path` is `dev.Path` so far;
`fields[len(fields)-1]` panics when the row has no field. -/
def scanRows (tgtIQN : Str) : List Str → Str → Except Panic Str
  | [], path => Except.ok path
  | entry :: rest, path =>
    if Contains entry tgtIQN then
      match (Fields entry).getLast? with
      | none => Except.error Panic.indexOutOfRange
      | some f => scanRows tgtIQN rest f
    else scanRows tgtIQN rest path

def lsscsiCmd : Cmd := ⟨"lsscsi".toList, ["-t".toList]⟩

def lsblkCmd (path : Str) : Cmd :=
  ⟨"lsblk".toList, [path, "-n".toList, "-o".toList, "name".toList, "-r".toList]⟩

/-- The second half of `GetDevice`, from `if isMultipath(dev.Path)` to the
final `return dev, nil`; `lines[1]` is an indexing that panics when the
slice is too short. -/
def resolveMapper (ex : Executor) (h : History) (dev : Device) :
    Except Panic (Device × Option Err) × History :=
  let m := isMultipath ex h dev.Path
  if m.1 = true then
    let r := CombinedOutput ex m.2 (lsblkCmd dev.Path)
    match r.1.err with
    | some e => (Except.ok (dev, some e), r.2)
    | none =>
      let lines := Split (TrimSpace r.1.out) '\n'
      if 1 < lines.length then
        match lines.get? 1 with
        | none => (Except.error Panic.indexOutOfRange, r.2)
        | some mpdev =>
          (Except.ok ({ dev with MPDevice := "/dev/mapper/".toList ++ mpdev }, none), r.2)
      else (Except.ok (dev, none), r.2)
  else (Except.ok (dev, none), m.2)

/-- Go `GetDevice`: the returned `(Device, error)`, or the panic, and the
history. -/
def GetDevice (ex : Executor) (h : History) (tgtIQN : Str) :
    Except Panic (Device × Option Err) × History :=
  let r := CombinedOutput ex h lsscsiCmd
  match r.1.err with
  | some e => (Except.ok (Device.zero, some e), r.2)
  | none =>
    let devices := Split (TrimSpace r.1.out) '\n'
    match scanRows tgtIQN devices Device.zero.Path with
    | Except.error p => (Except.error p, r.2)
    | Except.ok path => resolveMapper ex r.2 { Device.zero with Path := path }

/-! ## Reading a history -/

/-- The commands run in a stretch of history, in order. -/
def cmdsOf : History → List Cmd
  | [] => []
  | Event.exec c _ :: evs => c :: cmdsOf evs
  | Event.sleep _ :: evs => cmdsOf evs

/-- The errors returned by the commands of a stretch of history, in order. -/
def errsOf : History → List (Option Err)
  | [] => []
  | Event.exec _ r :: evs => r.err :: errsOf evs
  | Event.sleep _ :: evs => errsOf evs

/-- The events `evs` are what happens in world `ex` after history `h`: every
command's recorded result is the world's answer at that point. -/
def ranBy (ex : Executor) : History → History → Prop
  | _, [] => True
  | h, Event.exec c r :: evs => r = ex h c ∧ ranBy ex (h ++ [Event.exec c r]) evs
  | h, Event.sleep n :: evs => ranBy ex (h ++ [Event.sleep n]) evs

/-- The text between the first "=" of a line and its next "=" (or the end
of the line when there is no second "="). -/
def valueOf (l : Str) : Str :=
  ((l.dropWhile (fun c => c != '=')).tail).takeWhile (fun c => c != '=')

/-- The initiator names of a file content as the code extracts them: for each
line that contains "InitiatorName=" anywhere, the text between the first "="
of the line and the next one. -/
def iqnsOf (content : Str) : List Str :=
  (Split content '\n').filterMap
    (fun l => if Contains l initiatorKey then some (valueOf l) else none)

/-- The initiator names of a file content as the specification words them:
for each line of the form `InitiatorName=<value>`, the whole `<value>`. -/
def claimedIqns (content : Str) : List Str :=
  (Split content '\n').filterMap
    (fun l => if initiatorKey.isPrefixOf l
      then some (l.drop initiatorKey.length) else none)

/-- The five commands of the CHAP login as the specification lists them:
node create, authmethod, username, password, login, each against
`-m node -T tiqn -p portal`. -/
def chapSequence (tiqn portal username password iface : Str) : List Cmd :=
  [ ⟨"iscsiadm".toList, ["-m".toList, "node".toList, "-T".toList, tiqn, "-p".toList, portal,
      "--interface".toList, iface, "--op".toList, "new".toList]⟩,
    ⟨"iscsiadm".toList, ["-m".toList, "node".toList, "-T".toList, tiqn, "-p".toList, portal,
      "--op=update".toList, "--name".toList, "node.session.auth.authmethod".toList,
      "--value=CHAP".toList]⟩,
    ⟨"iscsiadm".toList, ["-m".toList, "node".toList, "-T".toList, tiqn, "-p".toList, portal,
      "--op=update".toList, "--name".toList, "node.session.auth.username".toList,
      "--value=".toList ++ username]⟩,
    ⟨"iscsiadm".toList, ["-m".toList, "node".toList, "-T".toList, tiqn, "-p".toList, portal,
      "--op=update".toList, "--name".toList, "node.session.auth.password".toList,
      "--value=".toList ++ password]⟩,
    ⟨"iscsiadm".toList, ["-m".toList, "node".toList, "-T".toList, tiqn, "-p".toList, portal,
      "--login".toList]⟩ ]

/-! ## Concrete worlds used by the evaluations below -/

/-- A world in which every command succeeds with empty output (so every
path exists and every login works). -/
def exAllOk : Executor := fun _ _ => ⟨[], none⟩

/-- A world in which every command succeeds and prints `out`. -/
def exOut (out : Str) : Executor := fun _ _ => ⟨out, none⟩

/-- A world that answers by program name: one result for `lsscsi`, one for
`multipath`, one for `lsblk`; every other command succeeds silently. -/
def exTable (lsscsi multipath lsblk : CmdResult) : Executor := fun _ c =>
  if c.name = "lsscsi".toList then lsscsi
  else if c.name = "multipath".toList then multipath
  else if c.name = "lsblk".toList then lsblk
  else ⟨[], none⟩

/-- The answer of `multipath -c` for a multipath device. -/
def validMultipath : CmdResult :=
  ⟨"/dev/sdb is a valid multipath device path".toList, none⟩

/-- A world in which every command fails. -/
def exAllFail : Executor := fun _ _ => ⟨[], some "exit status 1".toList⟩

/-- The device of the end-to-end scenario. -/
def scenarioDevice : Device :=
  { Device.zero with
    Portal := "10.0.0.1:3260".toList, IQN := "iqn.test:1".toList, Lun := 0,
    IFace := "default".toList }

/-- The by-path name of the scenario device. -/
def scenarioPath : Str :=
  "/dev/disk/by-path/ip-10.0.0.1:3260-iscsi-iqn.test:1lun-0".toList

/-! ## Path waiter and Attach -/

theorem waitLoop_zero (ex : Executor) (d : Str) (h : History) :
    waitLoop ex d 0 h = (false, h) := rfl

/-- C3: with `maxRetries = 0` the loop body never runs: `waitForPathToExist`
returns false and leaves the history untouched (no `stat`, no sleep), in
every world, also one in which the path exists. -/
theorem waitForPathToExist_zero (ex : Executor) (h : History) (p : Str) :
    waitForPathToExist ex h p 0 = (false, h) ∧
    (waitForPathToExist exAllOk [] scenarioPath 0 = (false, []) ∧
     (stat exAllOk [] scenarioPath).1.err = none) :=
  ⟨rfl, rfl, rfl⟩

/-- C1: in the end-to-end scenario (the path exists from the start, every
command succeeds) `Attach` returns the expected path, but only after it has
issued the login command: the commands run are the interface probe, the
login, and one `stat`. -/
theorem Attach_scenario_issues_login :
    devicePath scenarioDevice = scenarioPath ∧
    (stat exAllOk [] scenarioPath).1.err = none ∧
    Attach exAllOk [] scenarioDevice =
      (({ scenarioDevice with Path := scenarioPath }, none),
       [Event.exec (ifaceCmd "default".toList) ⟨[], none⟩,
        Event.exec (loginCmd "iqn.test:1".toList "10.0.0.1:3260".toList) ⟨[], none⟩,
        Event.exec (statCmd scenarioPath) ⟨[], none⟩]) := by
  refine ⟨by decide, rfl, ?_⟩
  decide

/-- C2: the error returned by `Attach` is the error of the interface probe:
it is non-nil exactly when the probe fails, it is then the probe's own error
and the device is the zero `Device`; when the probe succeeds the error is nil
whatever the later commands return. -/
theorem Attach_error_is_probe_error (ex : Executor) (h : History) (d : Device) :
    (Attach ex h d).1.2 = (ex h (ifaceCmd d.IFace)).err ∧
    ((Attach ex h d).1.2 ≠ none ↔ (ex h (ifaceCmd d.IFace)).err ≠ none) ∧
    ((ex h (ifaceCmd d.IFace)).err ≠ none → (Attach ex h d).1.1 = Device.zero) := by
  have key : (Attach ex h d).1.2 = (ex h (ifaceCmd d.IFace)).err ∧
      ((ex h (ifaceCmd d.IFace)).err ≠ none → (Attach ex h d).1.1 = Device.zero) := by
    unfold Attach
    simp only [CombinedOutput]
    cases hp : (ex h (ifaceCmd d.IFace)).err with
    | some e => simp
    | none =>
      simp only [ne_eq, not_true_eq_false, false_implies, and_true]
      split_ifs <;> rfl
  exact ⟨key.1, by rw [key.1], key.2⟩

theorem Attach_error_is_probe_error_witness :
    (Attach exAllFail [] scenarioDevice).1 = (Device.zero, some "exit status 1".toList) ∧
    (Attach exAllOk [] scenarioDevice).1.2 = none :=
  ⟨Prod.ext ((Attach_error_is_probe_error exAllFail [] scenarioDevice).2.2 (by decide))
      ((Attach_error_is_probe_error exAllFail [] scenarioDevice).1.trans (by decide)),
   (Attach_error_is_probe_error exAllOk [] scenarioDevice).1.trans (by decide)⟩

/-! ## LoginWithChap -/

theorem chapSequence_eq (tiqn portal username password iface : Str) :
    chapSequence tiqn portal username password iface =
      [createCmd tiqn portal iface, authMethodCmd tiqn portal,
       authUserCmd tiqn portal username, authPasswordCmd tiqn portal password,
       loginCmd tiqn portal] := rfl

/-- C6: the events `LoginWithChap` adds to the history are commands only; the
commands are a non-empty initial stretch of the fixed five-command sequence;
every command but the last one issued succeeded; the returned error is the
error of the last command issued; and the result is nil exactly when all five
commands were issued and all succeeded. -/
theorem LoginWithChap_sequence (ex : Executor) (h : History)
    (tiqn portal username password iface : Str) :
    ∃ evs : History,
      (LoginWithChap ex h tiqn portal username password iface).2 = h ++ evs ∧
      ranBy ex h evs ∧
      evs.length = (cmdsOf evs).length ∧
      cmdsOf evs ≠ [] ∧
      cmdsOf evs <+: chapSequence tiqn portal username password iface ∧
      (∀ e ∈ (errsOf evs).dropLast, e = none) ∧
      (errsOf evs).getLast? =
        some (LoginWithChap ex h tiqn portal username password iface).1 ∧
      ((LoginWithChap ex h tiqn portal username password iface).1 = none ↔
        cmdsOf evs = chapSequence tiqn portal username password iface ∧
        ∀ e ∈ errsOf evs, e = none) := by
  rw [chapSequence_eq]
  unfold LoginWithChap
  simp only [CombinedOutput]
  generalize createCmd tiqn portal iface = c1
  generalize authMethodCmd tiqn portal = c2
  generalize authUserCmd tiqn portal username = c3
  generalize authPasswordCmd tiqn portal password = c4
  generalize loginCmd tiqn portal = c5
  generalize hr1 : ex h c1 = r1
  generalize hr2 : ex (h ++ [Event.exec c1 r1]) c2 = r2
  cases h1 : r1.err with
  | some e1 =>
    exact ⟨[Event.exec c1 r1], by simp [cmdsOf, errsOf, ranBy, h1, hr1]⟩
  | none =>
    generalize hr3 : ex (h ++ [Event.exec c1 r1] ++ [Event.exec c2 r2]) c3 = r3
    simp only [List.append_assoc, List.cons_append, List.nil_append] at hr3
    cases h2 : r2.err with
    | some e2 =>
      exact ⟨[Event.exec c1 r1, Event.exec c2 r2],
        by simp [cmdsOf, errsOf, ranBy, h1, h2, hr1, hr2]⟩
    | none =>
      generalize hr4 :
        ex (h ++ [Event.exec c1 r1] ++ [Event.exec c2 r2] ++ [Event.exec c3 r3]) c4 = r4
      simp only [List.append_assoc, List.cons_append, List.nil_append] at hr4
      cases h3 : r3.err with
      | some e3 =>
        exact ⟨[Event.exec c1 r1, Event.exec c2 r2, Event.exec c3 r3],
          by simp [cmdsOf, errsOf, ranBy, h1, h2, h3, hr1, hr2, hr3]⟩
      | none =>
        generalize hr5 :
          ex (h ++ [Event.exec c1 r1] ++ [Event.exec c2 r2] ++ [Event.exec c3 r3] ++
            [Event.exec c4 r4]) c5 = r5
        simp only [List.append_assoc, List.cons_append, List.nil_append] at hr5
        cases h4 : r4.err with
        | some e4 =>
          exact ⟨[Event.exec c1 r1, Event.exec c2 r2, Event.exec c3 r3, Event.exec c4 r4],
            by simp [cmdsOf, errsOf, ranBy, h1, h2, h3, h4, hr1, hr2, hr3, hr4]⟩
        | none =>
          exact ⟨[Event.exec c1 r1, Event.exec c2 r2, Event.exec c3 r3, Event.exec c4 r4,
              Event.exec c5 r5],
            by simp [cmdsOf, errsOf, ranBy, h1, h2, h3, h4, hr1, hr2, hr3, hr4, hr5]⟩

theorem LoginWithChap_sequence_witness :
    ∃ evs : History,
      (LoginWithChap exAllFail [] "iqn.test:1".toList "10.0.0.1:3260".toList
        "user".toList "secret".toList "default".toList).2 = [] ++ evs ∧
      ranBy exAllFail [] evs ∧
      evs.length = (cmdsOf evs).length ∧
      cmdsOf evs ≠ [] ∧
      cmdsOf evs <+: chapSequence "iqn.test:1".toList "10.0.0.1:3260".toList
        "user".toList "secret".toList "default".toList ∧
      (∀ e ∈ (errsOf evs).dropLast, e = none) ∧
      (errsOf evs).getLast? =
        some (LoginWithChap exAllFail [] "iqn.test:1".toList "10.0.0.1:3260".toList
          "user".toList "secret".toList "default".toList).1 ∧
      ((LoginWithChap exAllFail [] "iqn.test:1".toList "10.0.0.1:3260".toList
          "user".toList "secret".toList "default".toList).1 = none ↔
        cmdsOf evs = chapSequence "iqn.test:1".toList "10.0.0.1:3260".toList
          "user".toList "secret".toList "default".toList ∧
        ∀ e ∈ errsOf evs, e = none) :=
  LoginWithChap_sequence exAllFail [] "iqn.test:1".toList "10.0.0.1:3260".toList
    "user".toList "secret".toList "default".toList

/-! ## String lemmas -/

theorem Contains_iff_occurs (s sub : Str) : Contains s sub = true ↔ sub <:+: s := by
  induction s with
  | nil => simp [Contains]
  | cons c cs ih =>
    simp only [Contains, Bool.or_eq_true, List.isPrefixOf_iff_prefix, ih]
    exact List.infix_cons_iff.symm

theorem mem_of_Contains {s sub : Str} (h : Contains s sub = true) {c : Char}
    (hc : c ∈ sub) : c ∈ s :=
  ((Contains_iff_occurs s sub).1 h).subset hc

theorem Split_eq (l : Str) (sep : Char) :
    Split l sep = l.takeWhile (fun c => c != sep) ::
      (if sep ∈ l then Split ((l.dropWhile (fun c => c != sep)).tail) sep else []) := by
  induction l with
  | nil => simp [Split]
  | cons c cs ih =>
    by_cases hc : c = sep
    · subst hc
      simp [Split]
    · have hne : sep ≠ c := fun e => hc e.symm
      have hb : (c != sep) = true := by simpa using hc
      rw [Split, if_neg hc, ih, consHead]
      simp [hb, hne]

theorem Split_get_one (l : Str) (hmem : '=' ∈ l) :
    (Split l '=').get? 1 = some (valueOf l) := by
  rw [Split_eq l, if_pos hmem, List.get?_cons_succ, Split_eq]
  rfl

theorem collectIqns_eq (ls acc : List Str) :
    collectIqns ls acc = Except.ok (acc ++ ls.filterMap
      (fun l => if Contains l initiatorKey then some (valueOf l) else none)) := by
  induction ls generalizing acc with
  | nil => simp [collectIqns]
  | cons l ls ih =>
    by_cases hc : Contains l initiatorKey = true
    · have hmem : '=' ∈ l := mem_of_Contains hc (by decide)
      rw [collectIqns, if_pos hc, Split_get_one l hmem]
      simp [ih, hc]
    · rw [collectIqns, if_neg hc, ih]
      simp [hc]

/-! ## GetInitiatorIqns -/

theorem valueOf_key_append (v : Str) :
    valueOf (initiatorKey ++ v) = v.takeWhile (fun c => c != '=') := rfl

theorem GetInitiatorIqns_eq (ex : Executor) (h : History)
    (hok : (ex h catCmd).err = none) :
    GetInitiatorIqns ex h =
      (Except.ok (iqnsOf (ex h catCmd).out, none), h ++ [Event.exec catCmd (ex h catCmd)]) := by
  unfold GetInitiatorIqns
  simp only [CombinedOutput, hok, collectIqns_eq, List.nil_append]
  rfl

/-- C7 (as the code has it): when the file is read successfully,
`GetInitiatorIqns` returns with a nil error, in file order, one value for every
line that contains "InitiatorName=" anywhere: the text between the first "="
of that line and its next "=" (or the line end).  When every such line has
the form `InitiatorName=<value>` with no "=" in the value, these are exactly
the values after "InitiatorName="; when no line contains the key the result
is the empty sequence. -/
theorem GetInitiatorIqns_values (ex : Executor) (h : History)
    (hok : (ex h catCmd).err = none) :
    (GetInitiatorIqns ex h).1 = Except.ok (iqnsOf (ex h catCmd).out, none) ∧
    ((∀ l ∈ Split (ex h catCmd).out '\n', Contains l initiatorKey = true →
        ∃ v, l = initiatorKey ++ v ∧ '=' ∉ v) →
      iqnsOf (ex h catCmd).out = claimedIqns (ex h catCmd).out) ∧
    ((∀ l ∈ Split (ex h catCmd).out '\n', Contains l initiatorKey = false) →
      iqnsOf (ex h catCmd).out = []) := by
  refine ⟨by rw [GetInitiatorIqns_eq ex h hok], ?_, ?_⟩
  · intro hform
    unfold iqnsOf claimedIqns
    apply List.filterMap_congr
    intro l hl
    by_cases hc : Contains l initiatorKey = true
    · obtain ⟨v, rfl, hv⟩ := hform l hl hc
      have hp : initiatorKey.isPrefixOf (initiatorKey ++ v) = true := by
        rw [List.isPrefixOf_iff_prefix]
        exact List.prefix_append _ _
      have htw : v.takeWhile (fun c => c != '=') = v := by
        rw [List.takeWhile_eq_self_iff]
        intro x hx
        have : x ≠ '=' := fun e => hv (e ▸ hx)
        simpa using this
      rw [if_pos hc, if_pos hp, valueOf_key_append, htw, List.drop_left]
    · have hp : ¬ initiatorKey.isPrefixOf l = true := by
        intro hpre
        rw [List.isPrefixOf_iff_prefix] at hpre
        exact hc ((Contains_iff_occurs l initiatorKey).2 hpre.isInfix)
      rw [if_neg hc, if_neg hp]
  · intro hnone
    unfold iqnsOf
    rw [List.filterMap_eq_nil_iff]
    intro l hl
    simp [hnone l hl]

theorem GetInitiatorIqns_values_witness :
    (GetInitiatorIqns (exOut "x=1\nInitiatorName=iqn.a\nInitiatorName=iqn.a".toList) []).1 =
      Except.ok (["iqn.a".toList, "iqn.a".toList], none) :=
  (GetInitiatorIqns_values (exOut "x=1\nInitiatorName=iqn.a\nInitiatorName=iqn.a".toList) []
    rfl).1.trans rfl

/-- C7 (as stated) fails: for the file content
"#InitiatorName=x" / "InitiatorName=a=b" the read succeeds and the code
returns "x" and "a", where the claim gives the single value "a=b". -/
theorem GetInitiatorIqns_not_whole_value :
    (exOut "#InitiatorName=x\nInitiatorName=a=b".toList [] catCmd).err = none ∧
    (GetInitiatorIqns (exOut "#InitiatorName=x\nInitiatorName=a=b".toList) []).1 =
      Except.ok (["x".toList, "a".toList], none) ∧
    claimedIqns "#InitiatorName=x\nInitiatorName=a=b".toList = ["a=b".toList] := by
  exact ⟨rfl, rfl, by decide⟩

/-! ## GetDevice -/

theorem fieldsGo_ne_nil (s cur : Str)
    (h : cur ≠ [] ∨ ∃ c ∈ s, isSpace c = false) : fieldsGo s cur ≠ [] := by
  induction s generalizing cur with
  | nil =>
    rcases h with h | ⟨c, hc, _⟩
    · cases cur with
      | nil => exact absurd rfl h
      | cons a as => simp [fieldsGo]
    · cases hc
  | cons a as ih =>
    unfold fieldsGo
    by_cases ha : isSpace a = true
    · rw [if_pos ha]
      cases cur with
      | nil =>
        rcases h with h | ⟨c, hc, hs⟩
        · exact absurd rfl h
        · rcases List.mem_cons.1 hc with rfl | hc
          · rw [ha] at hs
            cases hs
          · simpa using ih [] (Or.inr ⟨c, hc, hs⟩)
      | cons b bs => simp
    · rw [if_neg ha]
      exact ih (a :: cur) (Or.inl (List.cons_ne_nil _ _))

/-- A row that contains a target with a non-space character has a field. -/
theorem Fields_ne_nil_of_Contains {row t : Str} (hc : Contains row t = true)
    (ht : ∃ c ∈ t, isSpace c = false) : Fields row ≠ [] := by
  obtain ⟨c, hct, hs⟩ := ht
  exact fieldsGo_ne_nil row [] (Or.inr ⟨c, mem_of_Contains hc hct, hs⟩)

theorem scanRows_no_match (t : Str) (rows : List Str) (p : Str)
    (h : ∀ r ∈ rows, Contains r t = false) : scanRows t rows p = Except.ok p := by
  induction rows generalizing p with
  | nil => rfl
  | cons r rs ih =>
    have hr : Contains r t = false := h r (List.mem_cons_self _ _)
    rw [scanRows, hr]
    exact ih p (fun x hx => h x (List.mem_cons_of_mem _ hx))

theorem scanRows_ok (t : Str) (rows : List Str) (p : Str)
    (h : ∀ r ∈ rows, Contains r t = true → Fields r ≠ []) :
    ∃ q, scanRows t rows p = Except.ok q := by
  induction rows generalizing p with
  | nil => exact ⟨p, rfl⟩
  | cons r rs ih =>
    have hrs : ∀ x ∈ rs, Contains x t = true → Fields x ≠ [] :=
      fun x hx => h x (List.mem_cons_of_mem _ hx)
    by_cases hr : Contains r t = true
    · have hf := h r (List.mem_cons_self _ _) hr
      cases hl : (Fields r).getLast? with
      | none => exact absurd (List.getLast?_eq_none_iff.1 hl) hf
      | some f =>
        rw [scanRows, if_pos hr, hl]
        exact ih f hrs
    · rw [scanRows, if_neg hr]
      exact ih p hrs

theorem scanRows_append (t : Str) (pre rest : List Str) (p q : Str)
    (h : scanRows t pre p = Except.ok q) :
    scanRows t (pre ++ rest) p = scanRows t rest q := by
  induction pre generalizing p with
  | nil =>
    rw [scanRows] at h
    cases h
    rfl
  | cons r rs ih =>
    rw [List.cons_append, scanRows]
    rw [scanRows] at h
    by_cases hr : Contains r t = true
    · rw [if_pos hr] at h ⊢
      cases hl : (Fields r).getLast? with
      | none => rw [hl] at h; cases h
      | some f =>
        rw [hl] at h
        exact ih f h
    · rw [if_neg hr] at h ⊢
      exact ih p h

/-- The row scan returns the last field of the last row that contains the
target, when every row that contains the target has a field. -/
theorem scanRows_last_match (t : Str) (pre post : List Str) (l p : Str)
    (hl : Contains l t = true) (hpost : ∀ r ∈ post, Contains r t = false)
    (hf : ∀ r ∈ pre ++ l :: post, Contains r t = true → Fields r ≠ []) :
    ∃ f, (Fields l).getLast? = some f ∧
      scanRows t (pre ++ l :: post) p = Except.ok f := by
  obtain ⟨q, hq⟩ := scanRows_ok t pre p
    (fun r hr => hf r (List.mem_append_left _ hr))
  have hfl : Fields l ≠ [] :=
    hf l (List.mem_append_right _ (List.mem_cons_self _ _)) hl
  cases hlast : (Fields l).getLast? with
  | none => exact absurd (List.getLast?_eq_none_iff.1 hlast) hfl
  | some f =>
    refine ⟨f, rfl, ?_⟩
    rw [scanRows_append t pre (l :: post) p q hq, scanRows, if_pos hl, hlast]
    exact scanRows_no_match t post f hpost

/-- The second half of `GetDevice` never panics and keeps the path. -/
theorem resolveMapper_path (ex : Executor) (h : History) (dev : Device) :
    ∃ d e, (resolveMapper ex h dev).1 = Except.ok (d, e) ∧ d.Path = dev.Path := by
  unfold resolveMapper
  simp only [CombinedOutput]
  by_cases hm : (isMultipath ex h dev.Path).1 = true
  · rw [if_pos hm]
    cases he : (ex (isMultipath ex h dev.Path).2 (lsblkCmd dev.Path)).err with
    | some e => exact ⟨_, _, rfl, rfl⟩
    | none =>
      by_cases hlen : 1 < (Split (TrimSpace
          (ex (isMultipath ex h dev.Path).2 (lsblkCmd dev.Path)).out) '\n').length
      · simp only [if_pos hlen]
        cases hg : (Split (TrimSpace
            (ex (isMultipath ex h dev.Path).2 (lsblkCmd dev.Path)).out) '\n').get? 1 with
        | none =>
          rw [List.get?_eq_none] at hg
          omega
        | some l => exact ⟨_, _, rfl, rfl⟩
      · simp only [if_neg hlen]
        exact ⟨_, _, rfl, rfl⟩
  · rw [if_neg hm]
    exact ⟨_, _, rfl, rfl⟩

/-- C4 (as the code has it): when `lsscsi -t` succeeds, `l` is the last of
the scanned rows (the lines of the output after its leading and trailing
white space is trimmed) that contains the target, and every scanned row
containing the target has at least one field, `GetDevice` returns a device
whose `Path` is the last field of `l`. -/
theorem GetDevice_last_match (ex : Executor) (h : History) (t l : Str)
    (pre post : List Str)
    (hok : (ex h lsscsiCmd).err = none)
    (hrows : Split (TrimSpace (ex h lsscsiCmd).out) '\n' = pre ++ l :: post)
    (hl : Contains l t = true)
    (hpost : ∀ r ∈ post, Contains r t = false)
    (hf : ∀ r ∈ Split (TrimSpace (ex h lsscsiCmd).out) '\n',
      Contains r t = true → Fields r ≠ []) :
    ∃ f d e, (Fields l).getLast? = some f ∧
      (GetDevice ex h t).1 = Except.ok (d, e) ∧ d.Path = f := by
  rw [hrows] at hf
  obtain ⟨f, hlast, hscan⟩ := scanRows_last_match t pre post l Device.zero.Path hl hpost hf
  obtain ⟨d, e, hres, hpath⟩ := resolveMapper_path ex
    (h ++ [Event.exec lsscsiCmd (ex h lsscsiCmd)]) { Device.zero with Path := f }
  refine ⟨f, d, e, hlast, ?_, hpath⟩
  unfold GetDevice
  simp only [CombinedOutput, hok, hrows, hscan]
  exact hres

theorem GetDevice_last_match_witness :
    ∃ f d e, (Fields "iqn.x /dev/sdb".toList).getLast? = some f ∧
      (GetDevice (exOut "iqn.x /dev/sda\niqn.x /dev/sdb\n".toList) [] "iqn.x".toList).1 =
        Except.ok (d, e) ∧ d.Path = f :=
  GetDevice_last_match (exOut "iqn.x /dev/sda\niqn.x /dev/sdb\n".toList) [] "iqn.x".toList
    "iqn.x /dev/sdb".toList ["iqn.x /dev/sda".toList] [] rfl (by decide) (by decide)
    (by decide) (by decide)

/-- C4 (as stated) fails: the output " x y" has a line that contains the
target " x", and the last field of that line is "y"; the code scans the
trimmed output "x y", finds no match, and returns an empty `Path`. -/
theorem GetDevice_scans_trimmed_output :
    (exOut " x y".toList [] lsscsiCmd).err = none ∧
    Split " x y".toList '\n' = [" x y".toList] ∧
    Contains " x y".toList " x".toList = true ∧
    (Fields " x y".toList).getLast? = some "y".toList ∧
    (GetDevice (exOut " x y".toList) [] " x".toList).1 =
      Except.ok ({ Device.zero with Path := [] }, none) :=
  ⟨rfl, by decide, by decide, by decide, rfl⟩

/-- C10: the row scan indexes out of range.  With the empty target and an
empty `lsscsi` output the single row "" contains the target and has no
field; with the target " " and an output whose middle line is " ", that
line is selected and has no field.  `GetDevice` panics in both. -/
theorem GetDevice_row_scan_panics :
    (exOut [] [] lsscsiCmd).err = none ∧
    GetDevice (exOut []) [] [] =
      (Except.error Panic.indexOutOfRange, [Event.exec lsscsiCmd ⟨[], none⟩]) ∧
    (GetDevice (exOut "a b\n \nc d".toList) [] " ".toList).1 =
      Except.error Panic.indexOutOfRange :=
  ⟨rfl, rfl, rfl⟩

/-- C5: no row of the `lsscsi` output contains the target, yet `GetDevice`
returns a non-nil error: the multipath check is run on the empty path, the
world reports it as multipath, and the error of `lsblk` is returned. -/
theorem GetDevice_no_match_returns_lsblk_error :
    (∀ l ∈ Split "disk iqn.y /dev/sda".toList '\n', Contains l "iqn.x".toList = false) ∧
    (GetDevice (exTable ⟨"disk iqn.y /dev/sda".toList, none⟩ validMultipath
        ⟨[], some "exit status 32".toList⟩) [] "iqn.x".toList).1 =
      Except.ok (Device.zero, some "exit status 32".toList) :=
  ⟨by decide, rfl⟩

/-- C9: no row of the `lsscsi` output contains the target, yet the multipath
check and the `lsblk` listing are run (on the empty path) and the returned
device has `MPDevice` set while its `Path` is empty. -/
theorem GetDevice_mapper_without_path :
    GetDevice (exTable ⟨"disk iqn.y /dev/sda".toList, none⟩ validMultipath
        ⟨"sda\nmpatha\n".toList, none⟩) [] "iqn.x".toList =
      (Except.ok ({ Device.zero with Path := [], MPDevice := "/dev/mapper/mpatha".toList },
          none),
       [Event.exec lsscsiCmd ⟨"disk iqn.y /dev/sda".toList, none⟩,
        Event.exec (multipathCmd []) validMultipath,
        Event.exec (lsblkCmd []) ⟨"sda\nmpatha\n".toList, none⟩]) :=
  rfl

/-- C8 (as the code has it): when `lsscsi` succeeds, the scan finds `path`,
the multipath check reports it as multipath and `lsblk` succeeds, then, with
`lines` the lines of the `lsblk` output after its leading and trailing white
space is trimmed: if there is a second line, `MPDevice` is "/dev/mapper/"
followed by that line as it is; if there are fewer than two lines `MPDevice`
stays empty; in both cases `GetDevice` returns normally with a nil error. -/
theorem GetDevice_mapper_second_line (ex : Executor) (h h2 : History) (t path : Str)
    (hok : (ex h lsscsiCmd).err = none)
    (hscan : scanRows t (Split (TrimSpace (ex h lsscsiCmd).out) '\n') [] = Except.ok path)
    (hmp : isMultipath ex (h ++ [Event.exec lsscsiCmd (ex h lsscsiCmd)]) path = (true, h2))
    (hblk : (ex h2 (lsblkCmd path)).err = none) :
    (∀ l, (Split (TrimSpace (ex h2 (lsblkCmd path)).out) '\n').get? 1 = some l →
      (GetDevice ex h t).1 = Except.ok
        ({ Device.zero with Path := path, MPDevice := "/dev/mapper/".toList ++ l }, none)) ∧
    (2 ≤ (Split (TrimSpace (ex h2 (lsblkCmd path)).out) '\n').length →
      ∃ l, (Split (TrimSpace (ex h2 (lsblkCmd path)).out) '\n').get? 1 = some l) ∧
    ((Split (TrimSpace (ex h2 (lsblkCmd path)).out) '\n').length < 2 →
      (GetDevice ex h t).1 = Except.ok ({ Device.zero with Path := path }, none)) := by
  have hG : GetDevice ex h t = resolveMapper ex
      (h ++ [Event.exec lsscsiCmd (ex h lsscsiCmd)]) { Device.zero with Path := path } := by
    unfold GetDevice
    simp only [CombinedOutput, hok]
    rw [show Device.zero.Path = [] from rfl, hscan]
  rw [hG]
  unfold resolveMapper
  simp only [hmp, CombinedOutput, hblk, if_true]
  refine ⟨?_, ?_, ?_⟩
  · intro l hl
    have hlen : 1 < (Split (TrimSpace (ex h2 (lsblkCmd path)).out) '\n').length := by
      by_contra hc
      rw [List.get?_eq_none.2 (not_lt.1 hc)] at hl
      cases hl
    rw [if_pos hlen, hl]
  · intro hlen
    cases hg : (Split (TrimSpace (ex h2 (lsblkCmd path)).out) '\n').get? 1 with
    | none =>
      rw [List.get?_eq_none] at hg
      omega
    | some l => exact ⟨l, rfl⟩
  · intro hlen
    rw [if_neg (by omega)]

theorem GetDevice_mapper_second_line_witness :
    (GetDevice (exTable ⟨"iqn.x /dev/sdb".toList, none⟩ validMultipath
        ⟨"sdb\nmpatha\n".toList, none⟩) [] "iqn.x".toList).1 = Except.ok
      ({ Device.zero with Path := "/dev/sdb".toList,
                          MPDevice := "/dev/mapper/".toList ++ "mpatha".toList }, none) :=
  (GetDevice_mapper_second_line (exTable ⟨"iqn.x /dev/sdb".toList, none⟩ validMultipath
      ⟨"sdb\nmpatha\n".toList, none⟩) []
    [Event.exec lsscsiCmd ⟨"iqn.x /dev/sdb".toList, none⟩,
     Event.exec (multipathCmd "/dev/sdb".toList) validMultipath]
    "iqn.x".toList "/dev/sdb".toList rfl rfl rfl rfl).1 "mpatha".toList (by decide)

/-- C8 (as stated) fails: the located path is multipath and `lsblk` prints
the two lines "sdb" and " mpatha"; the second line with its white space
removed is "mpatha", but the code keeps the line as it is and returns the
`MPDevice` "/dev/mapper/ mpatha". -/
theorem GetDevice_mapper_keeps_inner_space :
    Split "sdb\n mpatha".toList '\n' = ["sdb".toList, " mpatha".toList] ∧
    TrimSpace " mpatha".toList = "mpatha".toList ∧
    GetDevice (exTable ⟨"iqn.x /dev/sdb".toList, none⟩ validMultipath
        ⟨"sdb\n mpatha".toList, none⟩) [] "iqn.x".toList =
      (Except.ok ({ Device.zero with Path := "/dev/sdb".toList,
                                     MPDevice := "/dev/mapper/ mpatha".toList }, none),
       [Event.exec lsscsiCmd ⟨"iqn.x /dev/sdb".toList, none⟩,
        Event.exec (multipathCmd "/dev/sdb".toList) validMultipath,
        Event.exec (lsblkCmd "/dev/sdb".toList) ⟨"sdb\n mpatha".toList, none⟩]) :=
  ⟨by decide, by decide, rfl⟩

end Iscsi
